import Mathlib

/-!
Shallow embedding of `src/pontoon/base/management/commands/update_auth_providers.py`
("Provider Sync"): a management command that, for each of six fixed OAuth
providers, checks whether its two configuration values are set and, if so,
upserts a `SocialApp` record (create-or-update keyed by `provider`) and
attaches the default `Site` to the record when its site set is empty.

The persistent ORM stores are modelled explicitly:
  * `DB.apps`    — the `SocialApp` table (each row with an integer primary key);
  * `DB.nextPk`  — the next auto-assigned primary key;
  * `DB.siteIds` — the primary keys of the existing `Site` rows.
Exceptions (`Site.DoesNotExist`, `MultipleObjectsReturned`) are modelled by an
error flag in the run state: once set, no further code of the command runs,
which is how a propagating Python exception behaves in `handle`.
-/

namespace UpdateAuthProviders

/-- `FirefoxAccountsProvider.id` from django-allauth. -/
def FXA_PROVIDER_ID : String := "fxa"

/-- `GitHubProvider.id` from django-allauth. -/
def GITHUB_PROVIDER_ID : String := "github"

/-- `GitLabProvider.id` from django-allauth. -/
def GITLAB_PROVIDER_ID : String := "gitlab"

/-- `GoogleProvider.id` from django-allauth. -/
def GOOGLE_PROVIDER_ID : String := "google"

/-- `KeycloakProvider.id` from django-allauth. -/
def KEYCLOAK_PROVIDER_ID : String := "keycloak"

/-- `DiscordProvider.id` from django-allauth. -/
def DISCORD_PROVIDER_ID : String := "discord"

/-- The twelve optional configuration strings read from `django.conf.settings`,
plus the default-site identifier `SITE_ID`.  A value of `none` models the
Python value `None` (absent); `some s` models any configured string `s`,
including the empty string. -/
structure Settings where
  FXA_CLIENT_ID : Option String
  FXA_SECRET_KEY : Option String
  GITHUB_CLIENT_ID : Option String
  GITHUB_SECRET_KEY : Option String
  GITLAB_CLIENT_ID : Option String
  GITLAB_SECRET_KEY : Option String
  GOOGLE_CLIENT_ID : Option String
  GOOGLE_SECRET_KEY : Option String
  KEYCLOAK_CLIENT_ID : Option String
  KEYCLOAK_CLIENT_SECRET : Option String
  DISCORD_CLIENT_ID : Option String
  DISCORD_SECRET_KEY : Option String
  SITE_ID : Nat
deriving DecidableEq, Repr

/-- A row of the `SocialApp` table: primary key, the fields written by the
command (`name`, `provider`, `client_id`, `secret`), and the many-to-many
`sites` relation as the list of attached site primary keys. -/
structure SocialApp where
  pk : Nat
  name : String
  provider : String
  client_id : String
  secret : String
  sites : List Nat
deriving DecidableEq, Repr

/-- The persistent state: the `SocialApp` rows, the next auto primary key,
and the primary keys of the existing `Site` rows. -/
structure DB where
  apps : List SocialApp
  nextPk : Nat
  siteIds : List Nat
deriving DecidableEq, Repr

/-- The exceptions that can propagate out of `update_provider`:
`Site.DoesNotExist` from the default-site lookup, and
`MultipleObjectsReturned` from `SocialApp.objects.get` (the `except` clause
only catches `ObjectDoesNotExist`). -/
inductive RunError where
  | siteNotFound
  | multipleObjectsReturned
deriving DecidableEq, Repr

/-- The run state threaded through the command: the database, the lines
written to stdout so far, and the pending exception (`none` while no
exception has been raised). -/
structure SyncState where
  db : DB
  out : List String
  err : Option RunError
deriving DecidableEq, Repr

/-- The `data` dict built in `handle` for one provider:
`dict(name=..., provider=..., client_id=..., secret=...)`. -/
structure ProviderData where
  name : String
  provider : String
  client_id : String
  secret : String
deriving DecidableEq, Repr

/-- `SocialApp.objects.filter(provider=p)`: the rows whose `provider` field
is `p`. -/
def appsFor (db : DB) (p : String) : List SocialApp :=
  db.apps.filter (fun a => a.provider == p)

/-- Saving a row `b` over the row with primary key `k`: every row whose
primary key is `k` is replaced by `b`, all other rows are untouched. -/
def mapReplace (k : Nat) (b : SocialApp) (l : List SocialApp) : List SocialApp :=
  l.map (fun x => if x.pk = k then b else x)

/-- The stdout line `"Updated existing authentication provider (pk=%s)" % app.pk`. -/
def updatedLine (pk : Nat) : String :=
  "Updated existing authentication provider (pk=" ++ toString pk ++ ")"

/-- The stdout line `"Created new authentication provider (pk=%s)" % app.pk`. -/
def createdLine (pk : Nat) : String :=
  "Created new authentication provider (pk=" ++ toString pk ++ ")"

/-- Lines 49-53 of the source: `sites_count = app.sites.count()`; if zero,
`Site.objects.get(pk=settings.SITE_ID)` (raising `Site.DoesNotExist` when no
such site exists) and `app.sites.add(default_site)`. -/
def attachSite (s : Settings) (app : SocialApp) (st : SyncState) : SyncState :=
  if app.sites.length = 0 then
    if s.SITE_ID ∈ st.db.siteIds then
      let app2 := { app with sites := app.sites ++ [s.SITE_ID] }
      { st with db := { st.db with apps := mapReplace app.pk app2 st.db.apps } }
    else
      { st with err := some RunError.siteNotFound }
  else st

/-- `Command.update_provider` (lines 32-53): look up the `SocialApp` with the
given provider key; if found, overwrite its fields with `data` (the `setattr`
loop over `name`, `provider`, `client_id`, `secret`), save, and print the
"Updated" line; if `ObjectDoesNotExist`, create a new row from `data` (the
save assigns the next primary key) and print the "Created" line; if several
rows match, `objects.get` raises `MultipleObjectsReturned`, which the
`except ObjectDoesNotExist` clause does not catch.  Finally ensure the
provider applies to the current default site via `attachSite`. -/
def update_provider (s : Settings) (d : ProviderData) (st : SyncState) : SyncState :=
  match appsFor st.db d.provider with
  | [] =>
      let app : SocialApp :=
        { pk := st.db.nextPk, name := d.name, provider := d.provider,
          client_id := d.client_id, secret := d.secret, sites := [] }
      attachSite s app
        { st with
          db := { st.db with apps := st.db.apps ++ [app], nextPk := st.db.nextPk + 1 },
          out := st.out ++ [createdLine app.pk] }
  | [a] =>
      let app : SocialApp :=
        { a with name := d.name, provider := d.provider,
                 client_id := d.client_id, secret := d.secret }
      attachSite s app
        { st with
          db := { st.db with apps := mapReplace a.pk app st.db.apps },
          out := st.out ++ [updatedLine app.pk] }
  | _ :: _ :: _ => { st with err := some RunError.multipleObjectsReturned }

/-- One provider definition: display name, provider key, and the two
settings fields consulted by the `if ... is not None` guard in `handle`. -/
structure ProviderDef where
  name : String
  provider : String
  getId : Settings → Option String
  getSecret : Settings → Option String

def fxaDef : ProviderDef :=
  { name := "FxA", provider := FXA_PROVIDER_ID,
    getId := Settings.FXA_CLIENT_ID, getSecret := Settings.FXA_SECRET_KEY }

def githubDef : ProviderDef :=
  { name := "GitHub", provider := GITHUB_PROVIDER_ID,
    getId := Settings.GITHUB_CLIENT_ID, getSecret := Settings.GITHUB_SECRET_KEY }

def gitlabDef : ProviderDef :=
  { name := "GitLab", provider := GITLAB_PROVIDER_ID,
    getId := Settings.GITLAB_CLIENT_ID, getSecret := Settings.GITLAB_SECRET_KEY }

def googleDef : ProviderDef :=
  { name := "Google", provider := GOOGLE_PROVIDER_ID,
    getId := Settings.GOOGLE_CLIENT_ID, getSecret := Settings.GOOGLE_SECRET_KEY }

def keycloakDef : ProviderDef :=
  { name := "Keycloak", provider := KEYCLOAK_PROVIDER_ID,
    getId := Settings.KEYCLOAK_CLIENT_ID, getSecret := Settings.KEYCLOAK_CLIENT_SECRET }

def discordDef : ProviderDef :=
  { name := "Discord", provider := DISCORD_PROVIDER_ID,
    getId := Settings.DISCORD_CLIENT_ID, getSecret := Settings.DISCORD_SECRET_KEY }

/-- One `if <id> is not None and <secret> is not None: ... update_provider(data)`
block of `handle`.  When an exception is already propagating (`st.err` set)
no further code of the command runs, so the state passes through unchanged. -/
def step (s : Settings) (d : ProviderDef) (st : SyncState) : SyncState :=
  match st.err with
  | some _ => st
  | none =>
      match d.getId s, d.getSecret s with
      | some cid, some sk =>
          update_provider s
            { name := d.name, provider := d.provider, client_id := cid, secret := sk } st
      | _, _ => st

/-- `Command.handle` (lines 55-135): the six provider blocks, in source
order FxA, GitHub, GitLab, Google, Keycloak, Discord. -/
def handle (s : Settings) (st : SyncState) : SyncState :=
  step s discordDef
    (step s keycloakDef
      (step s googleDef
        (step s gitlabDef
          (step s githubDef
            (step s fxaDef st)))))

/-- A full run of the command on a database: `handle` starting with empty
stdout and no pending exception. -/
def runSync (s : Settings) (db : DB) : SyncState :=
  handle s { db := db, out := [], err := none }

/-- The six provider definitions in the order `handle` processes them. -/
def providerDefs : List ProviderDef :=
  [fxaDef, githubDef, gitlabDef, googleDef, keycloakDef, discordDef]

/-- Folding `step` over a list of provider definitions; `handle` is this
fold over `providerDefs`. -/
def runList (s : Settings) (st : SyncState) (defs : List ProviderDef) : SyncState :=
  defs.foldl (fun acc d => step s d acc) st

/-- Database well-formedness, guaranteed by the ORM: primary keys are
distinct, every primary key is below the auto-assignment counter, and at
most one `SocialApp` row exists per provider key (the state the command
itself maintains, and the precondition under which `objects.get` cannot
raise `MultipleObjectsReturned`). -/
def WF (db : DB) : Prop :=
  (db.apps.map (fun a => a.pk)).Nodup ∧
  (∀ a ∈ db.apps, a.pk < db.nextPk) ∧
  (db.apps.map (fun a => a.provider)).Nodup

instance (db : DB) : Decidable (WF db) := by
  unfold WF; infer_instance

/-- After a run, provider `d` is synced for settings `s`: whenever both its
configuration values are present, exactly one row with its provider key
exists, carrying exactly the configured values and at least one site. -/
def Synced (s : Settings) (db : DB) (d : ProviderDef) : Prop :=
  ∀ cid sk, d.getId s = some cid → d.getSecret s = some sk →
    ∃ a, appsFor db d.provider = [a] ∧ a.name = d.name ∧ a.provider = d.provider ∧
      a.client_id = cid ∧ a.secret = sk ∧ a.sites ≠ []

/-- Example configuration: only GitHub fully configured, default site 1
(the scenario of the specification). -/
def sampleSettings : Settings :=
  { FXA_CLIENT_ID := none, FXA_SECRET_KEY := none,
    GITHUB_CLIENT_ID := some "abc", GITHUB_SECRET_KEY := some "def",
    GITLAB_CLIENT_ID := none, GITLAB_SECRET_KEY := none,
    GOOGLE_CLIENT_ID := none, GOOGLE_SECRET_KEY := none,
    KEYCLOAK_CLIENT_ID := none, KEYCLOAK_CLIENT_SECRET := none,
    DISCORD_CLIENT_ID := none, DISCORD_SECRET_KEY := none,
    SITE_ID := 1 }

/-- The same configuration with `SITE_ID` referring to a non-existent site. -/
def sampleSettingsBadSite : Settings := { sampleSettings with SITE_ID := 999 }

/-- The same configuration with the GitHub client id set to the empty
string (configured, but empty). -/
def sampleSettingsEmptyId : Settings :=
  { sampleSettings with GITHUB_CLIENT_ID := some "" }

/-- An empty database whose site table holds site 1. -/
def emptyDB : DB := { apps := [], nextPk := 1, siteIds := [1] }

/-- A database holding one FxA row attached to site 1. -/
def oneFxaDB : DB :=
  { apps := [{ pk := 1, name := "FxA", provider := "fxa", client_id := "x",
               secret := "y", sites := [1] }],
    nextPk := 2, siteIds := [1] }

/-- A database holding one GitHub row already attached to site 1, while the
site table itself is empty (site 1 no longer exists). -/
def githubSitedDB : DB :=
  { apps := [{ pk := 1, name := "GitHub", provider := "github",
               client_id := "old", secret := "olds", sites := [1] }],
    nextPk := 2, siteIds := [] }

/-! ### List-level lemmas -/

theorem mem_appsFor {db : DB} {p : String} {a : SocialApp} :
    a ∈ appsFor db p ↔ a ∈ db.apps ∧ a.provider = p := by
  simp [appsFor, List.mem_filter]

/-- With pairwise distinct provider keys, filtering on one key yields at
most one row. -/
theorem filter_provider_single (q : String) (l : List SocialApp)
    (h : (l.map (fun a => a.provider)).Nodup) :
    l.filter (fun a => a.provider == q) = [] ∨
    ∃ a, a ∈ l ∧ a.provider = q ∧ l.filter (fun a => a.provider == q) = [a] := by
  induction l with
  | nil => left; rfl
  | cons x xs ih =>
    simp only [List.map_cons, List.nodup_cons, List.mem_map] at h
    obtain ⟨hx, hxs⟩ := h
    by_cases hq : x.provider = q
    · right
      refine ⟨x, List.mem_cons_self x xs, hq, ?_⟩
      rw [List.filter_cons_of_pos (by simp [hq])]
      have hnil : xs.filter (fun a => a.provider == q) = [] := by
        rw [List.filter_eq_nil_iff]
        intro a ha
        simp only [beq_iff_eq]
        intro hc
        exact hx ⟨a, ha, by rw [hc, hq]⟩
      rw [hnil]
    · rw [List.filter_cons_of_neg (by simp [hq])]
      rcases ih hxs with hnil | ⟨a, ha, hap, hfa⟩
      · left; exact hnil
      · right; exact ⟨a, List.mem_cons_of_mem x ha, hap, hfa⟩

theorem mapReplace_eq_self {k : Nat} {b : SocialApp} {l : List SocialApp}
    (h : ∀ x ∈ l, x.pk = k → x = b) : mapReplace k b l = l := by
  induction l with
  | nil => rfl
  | cons x xs ih =>
    have ihx := ih fun y hy => h y (List.mem_cons_of_mem x hy)
    show (if x.pk = k then b else x) :: mapReplace k b xs = x :: xs
    by_cases hx : x.pk = k
    · rw [if_pos hx, h x (List.mem_cons_self x xs) hx, ihx]
    · rw [if_neg hx, ihx]

theorem mapReplace_filter_other {k : Nat} {b : SocialApp} {q : String}
    {l : List SocialApp} (hb : b.provider ≠ q)
    (hl : ∀ x ∈ l, x.pk = k → x.provider ≠ q) :
    (mapReplace k b l).filter (fun a => a.provider == q) =
      l.filter (fun a => a.provider == q) := by
  induction l with
  | nil => rfl
  | cons x xs ih =>
    have ihx := ih fun y hy => hl y (List.mem_cons_of_mem x hy)
    show (((if x.pk = k then b else x) :: mapReplace k b xs).filter
        (fun a => a.provider == q)) = (x :: xs).filter (fun a => a.provider == q)
    by_cases hx : x.pk = k
    · rw [if_pos hx,
        List.filter_cons_of_neg (by simp [hb]),
        List.filter_cons_of_neg (by simp [hl x (List.mem_cons_self x xs) hx])]
      exact ihx
    · rw [if_neg hx]
      by_cases hq : x.provider = q
      · rw [List.filter_cons_of_pos (by simp [hq]),
          List.filter_cons_of_pos (by simp [hq]), ihx]
      · rw [List.filter_cons_of_neg (by simp [hq]),
          List.filter_cons_of_neg (by simp [hq])]
        exact ihx

theorem mapReplace_pks {k : Nat} {b : SocialApp} (l : List SocialApp)
    (hb : b.pk = k) :
    (mapReplace k b l).map (fun a => a.pk) = l.map (fun a => a.pk) := by
  induction l with
  | nil => rfl
  | cons x xs ih =>
    show ((if x.pk = k then b else x) :: mapReplace k b xs).map (fun a => a.pk) =
      (x :: xs).map (fun a => a.pk)
    by_cases hx : x.pk = k
    · rw [if_pos hx]
      simp only [List.map_cons, ih, hb, hx]
    · rw [if_neg hx]
      simp only [List.map_cons, ih]

theorem mapReplace_providers {k : Nat} {b : SocialApp} {l : List SocialApp}
    (h : ∀ x ∈ l, x.pk = k → x.provider = b.provider) :
    (mapReplace k b l).map (fun a => a.provider) =
      l.map (fun a => a.provider) := by
  induction l with
  | nil => rfl
  | cons x xs ih =>
    have ihx := ih fun y hy => h y (List.mem_cons_of_mem x hy)
    show ((if x.pk = k then b else x) :: mapReplace k b xs).map (fun a => a.provider) =
      (x :: xs).map (fun a => a.provider)
    by_cases hx : x.pk = k
    · rw [if_pos hx]
      simp only [List.map_cons, ihx, h x (List.mem_cons_self x xs) hx]
    · rw [if_neg hx]
      simp only [List.map_cons, ihx]

/-- In a well-formed database, two rows with equal primary keys coincide. -/
theorem pk_unique {db : DB} (hwf : WF db) {a : SocialApp} (ha : a ∈ db.apps) :
    ∀ x ∈ db.apps, x.pk = a.pk → x = a := by
  intro x hx hpk
  exact List.inj_on_of_nodup_map hwf.1 hx ha hpk

/-- In a well-formed database, the rows for a provider key are `[]` or a
single row. -/
theorem appsFor_single {db : DB} (hwf : WF db) (q : String) :
    appsFor db q = [] ∨
    ∃ a, a ∈ db.apps ∧ a.provider = q ∧ appsFor db q = [a] :=
  filter_provider_single q db.apps hwf.2.2

theorem mem_mapReplace {k : Nat} {b : SocialApp} {l : List SocialApp} {y : SocialApp}
    (hy : y ∈ mapReplace k b l) :
    (y = b ∧ ∃ x ∈ l, x.pk = k) ∨ (y ∈ l ∧ y.pk ≠ k) := by
  rcases List.mem_map.mp hy with ⟨x, hx, hfx⟩
  by_cases h : x.pk = k
  · rw [if_pos h] at hfx
    exact Or.inl ⟨hfx.symm, x, hx, h⟩
  · rw [if_neg h] at hfx
    exact Or.inr ⟨hfx ▸ hx, hfx ▸ h⟩

theorem mapReplace_mem_of {k : Nat} {b : SocialApp} {l : List SocialApp} {x : SocialApp}
    (hx : x ∈ l) : (if x.pk = k then b else x) ∈ mapReplace k b l :=
  List.mem_map_of_mem _ hx

/-! ### Branch equations for `update_provider` and `attachSite` -/

theorem update_provider_nil (s : Settings) (d : ProviderData) (st : SyncState)
    (hnil : appsFor st.db d.provider = []) :
    update_provider s d st =
      attachSite s
        { pk := st.db.nextPk, name := d.name, provider := d.provider,
          client_id := d.client_id, secret := d.secret, sites := [] }
        { st with
          db := { st.db with
            apps := st.db.apps ++
              [{ pk := st.db.nextPk, name := d.name, provider := d.provider,
                 client_id := d.client_id, secret := d.secret, sites := [] }],
            nextPk := st.db.nextPk + 1 },
          out := st.out ++ [createdLine st.db.nextPk] } := by
  unfold update_provider
  rw [hnil]

theorem update_provider_one (s : Settings) (d : ProviderData) (st : SyncState)
    (a : SocialApp) (hone : appsFor st.db d.provider = [a]) :
    update_provider s d st =
      attachSite s
        { a with name := d.name, provider := d.provider,
                 client_id := d.client_id, secret := d.secret }
        { st with
          db := { st.db with
            apps := mapReplace a.pk
              { a with name := d.name, provider := d.provider,
                       client_id := d.client_id, secret := d.secret } st.db.apps },
          out := st.out ++ [updatedLine a.pk] } := by
  unfold update_provider
  rw [hone]

theorem attachSite_nonempty (s : Settings) (app : SocialApp) (st : SyncState)
    (h : app.sites ≠ []) : attachSite s app st = st := by
  unfold attachSite
  rw [if_neg (by simpa using h)]

theorem attachSite_empty_found (s : Settings) (app : SocialApp) (st : SyncState)
    (h : app.sites = []) (hs : s.SITE_ID ∈ st.db.siteIds) :
    attachSite s app st =
      { st with db := { st.db with
          apps := mapReplace app.pk
            { app with sites := app.sites ++ [s.SITE_ID] } st.db.apps } } := by
  unfold attachSite
  rw [if_pos (by simp [h]), if_pos hs]

theorem attachSite_empty_missing (s : Settings) (app : SocialApp) (st : SyncState)
    (h : app.sites = []) (hs : s.SITE_ID ∉ st.db.siteIds) :
    attachSite s app st = { st with err := some RunError.siteNotFound } := by
  unfold attachSite
  rw [if_pos (by simp [h]), if_neg hs]

theorem attachSite_out (s : Settings) (app : SocialApp) (st : SyncState) :
    (attachSite s app st).out = st.out := by
  unfold attachSite
  split <;> [skip; rfl]
  split <;> rfl

theorem attachSite_siteIds (s : Settings) (app : SocialApp) (st : SyncState) :
    (attachSite s app st).db.siteIds = st.db.siteIds := by
  unfold attachSite
  split <;> [skip; rfl]
  split <;> rfl

theorem attachSite_nextPk (s : Settings) (app : SocialApp) (st : SyncState) :
    (attachSite s app st).db.nextPk = st.db.nextPk := by
  unfold attachSite
  split <;> [skip; rfl]
  split <;> rfl

/-- Replacing (by primary key) the unique row matching a provider filter by a
row with the same key yields the filter `[b]`. -/
theorem filter_mapReplace_single (q : String) (b : SocialApp) (hbq : b.provider = q) :
    ∀ (l : List SocialApp) (a : SocialApp), (∀ x ∈ l, x.pk = a.pk → x = a) →
      l.filter (fun x => x.provider == q) = [a] →
      (mapReplace a.pk b l).filter (fun x => x.provider == q) = [b] := by
  intro l
  induction l with
  | nil => intro a _ hone; simp at hone
  | cons y ys ih =>
    intro a hpk hone
    show ((if y.pk = a.pk then b else y) :: mapReplace a.pk b ys).filter
        (fun x => x.provider == q) = [b]
    by_cases hy : y.pk = a.pk
    · have hya : y = a := hpk y (List.mem_cons_self y ys) hy
      subst hya
      have hyq : y.provider = q := by
        by_contra hq
        rw [List.filter_cons_of_neg (by simp [hq])] at hone
        have : y ∈ ys.filter (fun x => x.provider == q) := by
          rw [hone]; exact List.mem_cons_self y []
        exact hq (by simpa using (List.mem_filter.mp this).2)
      rw [List.filter_cons_of_pos (by simp [hyq])] at hone
      have hys : ys.filter (fun x => x.provider == q) = [] :=
        List.tail_eq_of_cons_eq hone
      have hrepl : mapReplace y.pk b ys = ys := by
        apply mapReplace_eq_self
        intro x hx hxpk
        have hxy : x = y := hpk x (List.mem_cons_of_mem y hx) hxpk
        subst hxy
        have : x ∈ ys.filter (fun z => z.provider == q) :=
          List.mem_filter.mpr ⟨hx, by simp [hyq]⟩
        rw [hys] at this
        exact absurd this (List.not_mem_nil x)
      rw [if_pos hy, List.filter_cons_of_pos (by simp [hbq]), hrepl, hys]
    · have hya : y ≠ a := fun h => hy (by rw [h])
      have hyq : y.provider ≠ q := by
        intro hq
        rw [List.filter_cons_of_pos (by simp [hq])] at hone
        exact hya (List.head_eq_of_cons_eq hone)
      rw [List.filter_cons_of_neg (by simp [hyq])] at hone
      rw [if_neg hy, List.filter_cons_of_neg (by simp [hyq])]
      exact ih a (fun x hx => hpk x (List.mem_cons_of_mem y hx)) hone

/-! ### `attachSite` invariants -/

theorem attachSite_wf (s : Settings) (app : SocialApp) (st : SyncState)
    (hwf : WF st.db) (hpk : ∀ x ∈ st.db.apps, x.pk = app.pk → x = app) :
    WF (attachSite s app st).db := by
  by_cases hsi : app.sites = []
  · by_cases hmem : s.SITE_ID ∈ st.db.siteIds
    · rw [attachSite_empty_found s app st hsi hmem]
      obtain ⟨hnodup, hbound, hprov⟩ := hwf
      refine ⟨?_, ?_, ?_⟩
      · show (List.map (fun a => a.pk)
          (mapReplace app.pk { app with sites := app.sites ++ [s.SITE_ID] }
            st.db.apps)).Nodup
        rw [mapReplace_pks (k := app.pk)
          (b := { app with sites := app.sites ++ [s.SITE_ID] }) st.db.apps rfl]
        exact hnodup
      · intro y hy
        rcases mem_mapReplace hy with ⟨rfl, x, hx, hxpk⟩ | ⟨hyl, _⟩
        · have := hbound x hx
          have hxa : x = app := hpk x hx hxpk
          subst hxa
          exact this
        · exact hbound y hyl
      · show (List.map (fun a => a.provider)
          (mapReplace app.pk { app with sites := app.sites ++ [s.SITE_ID] }
            st.db.apps)).Nodup
        rw [mapReplace_providers (fun x hx hxpk => by rw [hpk x hx hxpk])]
        exact hprov
    · rw [attachSite_empty_missing s app st hsi hmem]; exact hwf
  · rw [attachSite_nonempty s app st hsi]; exact hwf

theorem attachSite_self (s : Settings) (app : SocialApp) (st : SyncState) (q : String)
    (hwf : WF st.db) (hfind : appsFor st.db q = [app]) :
    ∃ b, appsFor (attachSite s app st).db q = [b] ∧
      b.pk = app.pk ∧ b.name = app.name ∧ b.provider = app.provider ∧
      b.client_id = app.client_id ∧ b.secret = app.secret ∧
      (app.sites ≠ [] → b.sites = app.sites) ∧
      ((attachSite s app st).err = none → b.sites ≠ []) := by
  have hmemapp : app ∈ st.db.apps ∧ app.provider = q := by
    have : app ∈ appsFor st.db q := by rw [hfind]; exact List.mem_cons_self app []
    exact mem_appsFor.mp this
  by_cases hsi : app.sites = []
  · by_cases hmem : s.SITE_ID ∈ st.db.siteIds
    · rw [attachSite_empty_found s app st hsi hmem]
      refine ⟨{ app with sites := app.sites ++ [s.SITE_ID] }, ?_, rfl, rfl, rfl, rfl, rfl,
        fun h => absurd hsi h, fun _ => by simp⟩
      exact filter_mapReplace_single q { app with sites := app.sites ++ [s.SITE_ID] }
        hmemapp.2 st.db.apps app
        (fun x hx hxpk => pk_unique hwf hmemapp.1 x hx hxpk) hfind
    · rw [attachSite_empty_missing s app st hsi hmem]
      exact ⟨app, hfind, rfl, rfl, rfl, rfl, rfl, fun _ => rfl,
        fun h => by simp at h⟩
  · rw [attachSite_nonempty s app st hsi]
    exact ⟨app, hfind, rfl, rfl, rfl, rfl, rfl, fun _ => rfl, fun _ => hsi⟩

theorem attachSite_frame (s : Settings) (app : SocialApp) (st : SyncState) (q : String)
    (hq : app.provider ≠ q) (hpk : ∀ x ∈ st.db.apps, x.pk = app.pk → x.provider ≠ q) :
    appsFor (attachSite s app st).db q = appsFor st.db q := by
  by_cases hsi : app.sites = []
  · by_cases hmem : s.SITE_ID ∈ st.db.siteIds
    · rw [attachSite_empty_found s app st hsi hmem]
      exact mapReplace_filter_other hq hpk
    · rw [attachSite_empty_missing s app st hsi hmem]
  · rw [attachSite_nonempty s app st hsi]

theorem attachSite_persist (s : Settings) (app : SocialApp) (st : SyncState)
    {r : SocialApp} (hr : r ∈ st.db.apps)
    (hpk : ∀ x ∈ st.db.apps, x.pk = app.pk → x = app) :
    ∃ r2, r2 ∈ (attachSite s app st).db.apps ∧ r2.pk = r.pk ∧
      r2.provider = r.provider ∧ (r.sites ≠ [] → r2.sites = r.sites) := by
  by_cases hsi : app.sites = []
  · by_cases hmem : s.SITE_ID ∈ st.db.siteIds
    · rw [attachSite_empty_found s app st hsi hmem]
      by_cases hrk : r.pk = app.pk
      · have hra : r = app := hpk r hr hrk
        subst hra
        refine ⟨{ r with sites := r.sites ++ [s.SITE_ID] }, ?_, rfl, rfl,
          fun h => absurd hsi h⟩
        have := mapReplace_mem_of (k := r.pk)
          (b := { r with sites := r.sites ++ [s.SITE_ID] }) hr
        rw [if_pos rfl] at this
        exact this
      · refine ⟨r, ?_, rfl, rfl, fun _ => rfl⟩
        have := mapReplace_mem_of (k := app.pk)
          (b := { app with sites := app.sites ++ [s.SITE_ID] }) hr
        rw [if_neg hrk] at this
        exact this
    · rw [attachSite_empty_missing s app st hsi hmem]
      exact ⟨r, hr, rfl, rfl, fun _ => rfl⟩
  · rw [attachSite_nonempty s app st hsi]
    exact ⟨r, hr, rfl, rfl, fun _ => rfl⟩

/-! ### `update_provider` invariants -/

theorem not_mem_providers_of_nil {db : DB} {q : String}
    (hnil : appsFor db q = []) : q ∉ db.apps.map (fun a => a.provider) := by
  intro hq
  rcases List.mem_map.mp hq with ⟨a, ha, hap⟩
  have : a ∈ appsFor db q := mem_appsFor.mpr ⟨ha, hap⟩
  rw [hnil] at this
  exact absurd this (List.not_mem_nil a)

theorem wf_append (db : DB) (app : SocialApp) (hwf : WF db)
    (hpk : app.pk = db.nextPk)
    (hprov : app.provider ∉ db.apps.map (fun a => a.provider)) :
    WF { db with apps := db.apps ++ [app], nextPk := db.nextPk + 1 } := by
  obtain ⟨hnodup, hbound, hprovs⟩ := hwf
  refine ⟨?_, ?_, ?_⟩
  · show (List.map (fun a => a.pk) (db.apps ++ [app])).Nodup
    rw [List.map_append]
    rw [List.nodup_append]
    refine ⟨hnodup, List.nodup_singleton _, ?_⟩
    intro k hk hk1
    simp only [List.map_cons, List.map_nil, List.mem_singleton] at hk1
    rcases List.mem_map.mp hk with ⟨a, ha, hak⟩
    have := hbound a ha
    rw [hak, hk1, hpk] at this
    exact lt_irrefl _ this
  · intro a ha
    rcases List.mem_append.mp ha with h | h
    · exact Nat.lt_succ_of_lt (hbound a h)
    · rw [List.mem_singleton] at h
      rw [h, hpk]
      exact Nat.lt_succ_self _
  · show (List.map (fun a => a.provider) (db.apps ++ [app])).Nodup
    rw [List.map_append, List.nodup_append]
    refine ⟨hprovs, List.nodup_singleton _, ?_⟩
    intro p hp hp1
    simp only [List.map_cons, List.map_nil, List.mem_singleton] at hp1
    rw [hp1] at hp
    exact hprov hp

theorem pkuniq_append (db : DB) (app : SocialApp) (hwf : WF db)
    (hpk : app.pk = db.nextPk) :
    ∀ x ∈ db.apps ++ [app], x.pk = app.pk → x = app := by
  intro x hx hxpk
  rcases List.mem_append.mp hx with h | h
  · have := hwf.2.1 x h
    rw [hxpk, hpk] at this
    exact absurd this (lt_irrefl _)
  · exact List.mem_singleton.mp h

theorem wf_mapReplace (db : DB) (a b : SocialApp) (hwf : WF db)
    (ha : a ∈ db.apps) (hbpk : b.pk = a.pk) (hbprov : b.provider = a.provider) :
    WF { db with apps := mapReplace a.pk b db.apps } := by
  obtain ⟨hnodup, hbound, hprovs⟩ := hwf
  refine ⟨?_, ?_, ?_⟩
  · show (List.map (fun x => x.pk) (mapReplace a.pk b db.apps)).Nodup
    rw [mapReplace_pks db.apps hbpk]
    exact hnodup
  · intro y hy
    rcases mem_mapReplace hy with ⟨rfl, x, hx, _⟩ | ⟨hyl, _⟩
    · rw [hbpk]
      exact hbound a ha
    · exact hbound y hyl
  · show (List.map (fun x => x.provider) (mapReplace a.pk b db.apps)).Nodup
    rw [mapReplace_providers (fun x hx hxpk => by
      rw [pk_unique ⟨hnodup, hbound, hprovs⟩ ha x hx hxpk, hbprov])]
    exact hprovs

theorem pkuniq_mapReplace (db : DB) (a b : SocialApp) (hbpk : b.pk = a.pk) :
    ∀ x ∈ mapReplace a.pk b db.apps, x.pk = b.pk → x = b := by
  intro x hx hxpk
  rcases mem_mapReplace hx with ⟨h, _⟩ | ⟨_, hne⟩
  · exact h
  · rw [hbpk] at hxpk
    exact absurd hxpk hne

theorem update_provider_wf (s : Settings) (d : ProviderData) (st : SyncState)
    (hwf : WF st.db) : WF (update_provider s d st).db := by
  rcases appsFor_single hwf d.provider with hnil | ⟨a, hmem, hap, hone⟩
  · rw [update_provider_nil s d st hnil]
    exact attachSite_wf s _ _
      (wf_append st.db _ hwf rfl (not_mem_providers_of_nil hnil))
      (pkuniq_append st.db _ hwf rfl)
  · rw [update_provider_one s d st a hone]
    exact attachSite_wf s _ _
      (wf_mapReplace st.db a _ hwf hmem rfl hap.symm)
      (pkuniq_mapReplace st.db a _ rfl)

/-- After `update_provider` on a well-formed database, exactly one row for
`d.provider` exists, its fields are those of `d`, and if no exception is
pending afterwards it has at least one site. -/
theorem update_provider_self (s : Settings) (d : ProviderData) (st : SyncState)
    (hwf : WF st.db) :
    ∃ b, appsFor (update_provider s d st).db d.provider = [b] ∧
      b.name = d.name ∧ b.provider = d.provider ∧
      b.client_id = d.client_id ∧ b.secret = d.secret ∧
      ((update_provider s d st).err = none → b.sites ≠ []) := by
  rcases appsFor_single hwf d.provider with hnil | ⟨a, hmem, hap, hone⟩
  · rw [update_provider_nil s d st hnil]
    have hfind : (st.db.apps ++
        [({ pk := st.db.nextPk, name := d.name, provider := d.provider,
            client_id := d.client_id, secret := d.secret,
            sites := [] } : SocialApp)]).filter (fun x => x.provider == d.provider) =
        [{ pk := st.db.nextPk, name := d.name, provider := d.provider,
           client_id := d.client_id, secret := d.secret, sites := [] }] := by
      rw [List.filter_append,
        show (st.db.apps.filter (fun x => x.provider == d.provider)) = [] from hnil,
        List.filter_cons_of_pos (by simp)]
      rfl
    obtain ⟨b, hb, hbpk, hbnm, hbpv, hbci, hbse, _, hberr⟩ :=
      attachSite_self s
        { pk := st.db.nextPk, name := d.name, provider := d.provider,
          client_id := d.client_id, secret := d.secret, sites := [] }
        { st with
          db := { st.db with
            apps := st.db.apps ++
              [{ pk := st.db.nextPk, name := d.name, provider := d.provider,
                 client_id := d.client_id, secret := d.secret, sites := [] }],
            nextPk := st.db.nextPk + 1 },
          out := st.out ++ [createdLine st.db.nextPk] }
        d.provider
        (wf_append st.db
          { pk := st.db.nextPk, name := d.name, provider := d.provider,
            client_id := d.client_id, secret := d.secret, sites := [] }
          hwf rfl (not_mem_providers_of_nil hnil))
        hfind
    exact ⟨b, hb, hbnm, hbpv, hbci, hbse, hberr⟩
  · rw [update_provider_one s d st a hone]
    have hfind : (mapReplace a.pk
        ({ a with name := d.name, provider := d.provider,
                  client_id := d.client_id, secret := d.secret } : SocialApp)
        st.db.apps).filter (fun x => x.provider == d.provider) =
        [{ a with name := d.name, provider := d.provider,
                  client_id := d.client_id, secret := d.secret }] :=
      filter_mapReplace_single d.provider
        { a with name := d.name, provider := d.provider,
                 client_id := d.client_id, secret := d.secret }
        rfl st.db.apps a (pk_unique hwf hmem) hone
    obtain ⟨b, hb, hbpk, hbnm, hbpv, hbci, hbse, _, hberr⟩ :=
      attachSite_self s
        { a with name := d.name, provider := d.provider,
                 client_id := d.client_id, secret := d.secret }
        { st with
          db := { st.db with
            apps := mapReplace a.pk
              { a with name := d.name, provider := d.provider,
                       client_id := d.client_id, secret := d.secret } st.db.apps },
          out := st.out ++ [updatedLine a.pk] }
        d.provider
        (wf_mapReplace st.db a
          { a with name := d.name, provider := d.provider,
                   client_id := d.client_id, secret := d.secret }
          hwf hmem rfl hap.symm)
        hfind
    exact ⟨b, hb, hbnm, hbpv, hbci, hbse, hberr⟩

/-- `update_provider` for one provider key leaves the rows of every other
provider key untouched. -/
theorem update_provider_frame (s : Settings) (d : ProviderData) (st : SyncState)
    (q : String) (hwf : WF st.db) (hq : q ≠ d.provider) :
    appsFor (update_provider s d st).db q = appsFor st.db q := by
  have hq' : d.provider ≠ q := fun h => hq h.symm
  rcases appsFor_single hwf d.provider with hnil | ⟨a, hmem, hap, hone⟩
  · rw [update_provider_nil s d st hnil]
    rw [attachSite_frame s
      { pk := st.db.nextPk, name := d.name, provider := d.provider,
        client_id := d.client_id, secret := d.secret, sites := [] }
      { st with
        db := { st.db with
          apps := st.db.apps ++
            [{ pk := st.db.nextPk, name := d.name, provider := d.provider,
               client_id := d.client_id, secret := d.secret, sites := [] }],
          nextPk := st.db.nextPk + 1 },
        out := st.out ++ [createdLine st.db.nextPk] }
      q hq'
      (fun x hx hxpk => by
        rw [pkuniq_append st.db
          { pk := st.db.nextPk, name := d.name, provider := d.provider,
            client_id := d.client_id, secret := d.secret, sites := [] }
          hwf rfl x hx hxpk]
        exact hq')]
    show (st.db.apps ++ _).filter (fun x => x.provider == q) = _
    rw [List.filter_append, List.filter_cons_of_neg (by simp [hq']),
      List.filter_nil, List.append_nil]
    rfl
  · rw [update_provider_one s d st a hone]
    rw [attachSite_frame s
      { a with name := d.name, provider := d.provider,
               client_id := d.client_id, secret := d.secret }
      { st with
        db := { st.db with
          apps := mapReplace a.pk
            { a with name := d.name, provider := d.provider,
                     client_id := d.client_id, secret := d.secret } st.db.apps },
        out := st.out ++ [updatedLine a.pk] }
      q hq'
      (fun x hx hxpk => by
        rw [pkuniq_mapReplace st.db a
          { a with name := d.name, provider := d.provider,
                   client_id := d.client_id, secret := d.secret }
          rfl x hx hxpk]
        exact hq')]
    exact mapReplace_filter_other hq'
      (fun x hx hxpk => by rw [pk_unique hwf hmem x hx hxpk, hap]; exact hq')

theorem update_provider_out_nil (s : Settings) (d : ProviderData) (st : SyncState)
    (hnil : appsFor st.db d.provider = []) :
    (update_provider s d st).out = st.out ++ [createdLine st.db.nextPk] := by
  rw [update_provider_nil s d st hnil, attachSite_out]

theorem update_provider_out_one (s : Settings) (d : ProviderData) (st : SyncState)
    (a : SocialApp) (hone : appsFor st.db d.provider = [a]) :
    (update_provider s d st).out = st.out ++ [updatedLine a.pk] := by
  rw [update_provider_one s d st a hone, attachSite_out]

/-- Every pre-existing row survives `update_provider` with its primary key
and provider key intact, and with its site set intact whenever that set was
non-empty. -/
theorem update_provider_persist (s : Settings) (d : ProviderData) (st : SyncState)
    (hwf : WF st.db) {r : SocialApp} (hr : r ∈ st.db.apps) :
    ∃ r2, r2 ∈ (update_provider s d st).db.apps ∧ r2.pk = r.pk ∧
      r2.provider = r.provider ∧ (r.sites ≠ [] → r2.sites = r.sites) := by
  rcases appsFor_single hwf d.provider with hnil | ⟨a, hmem, hap, hone⟩
  · rw [update_provider_nil s d st hnil]
    exact attachSite_persist s
      { pk := st.db.nextPk, name := d.name, provider := d.provider,
        client_id := d.client_id, secret := d.secret, sites := [] }
      { st with
        db := { st.db with
          apps := st.db.apps ++
            [{ pk := st.db.nextPk, name := d.name, provider := d.provider,
               client_id := d.client_id, secret := d.secret, sites := [] }],
          nextPk := st.db.nextPk + 1 },
        out := st.out ++ [createdLine st.db.nextPk] }
      (List.mem_append_left _ hr)
      (pkuniq_append st.db
        { pk := st.db.nextPk, name := d.name, provider := d.provider,
          client_id := d.client_id, secret := d.secret, sites := [] }
        hwf rfl)
  · rw [update_provider_one s d st a hone]
    by_cases hrk : r.pk = a.pk
    · have hra : r = a := pk_unique hwf hmem r hr hrk
      subst hra
      have hr1 := mapReplace_mem_of (k := r.pk)
        (b := ({ r with name := d.name, provider := d.provider,
                        client_id := d.client_id, secret := d.secret } : SocialApp)) hr
      rw [if_pos rfl] at hr1
      obtain ⟨r2, hr2, hr2pk, hr2pv, hr2si⟩ :=
        attachSite_persist s
          { r with name := d.name, provider := d.provider,
                   client_id := d.client_id, secret := d.secret }
          { st with
            db := { st.db with
              apps := mapReplace r.pk
                { r with name := d.name, provider := d.provider,
                         client_id := d.client_id, secret := d.secret } st.db.apps },
            out := st.out ++ [updatedLine r.pk] }
          hr1
          (pkuniq_mapReplace st.db r
            { r with name := d.name, provider := d.provider,
                     client_id := d.client_id, secret := d.secret } rfl)
      exact ⟨r2, hr2, hr2pk, by rw [hr2pv, hap], hr2si⟩
    · have hr1 := mapReplace_mem_of (k := a.pk)
        (b := ({ a with name := d.name, provider := d.provider,
                        client_id := d.client_id, secret := d.secret } : SocialApp)) hr
      rw [if_neg hrk] at hr1
      obtain ⟨r2, hr2, hr2pk, hr2pv, hr2si⟩ :=
        attachSite_persist s
          { a with name := d.name, provider := d.provider,
                   client_id := d.client_id, secret := d.secret }
          { st with
            db := { st.db with
              apps := mapReplace a.pk
                { a with name := d.name, provider := d.provider,
                         client_id := d.client_id, secret := d.secret } st.db.apps },
            out := st.out ++ [updatedLine a.pk] }
          hr1
          (pkuniq_mapReplace st.db a
            { a with name := d.name, provider := d.provider,
                     client_id := d.client_id, secret := d.secret } rfl)
      exact ⟨r2, hr2, hr2pk, hr2pv, hr2si⟩

/-- If the row for `d.provider` already has a site, or the default site
exists, `update_provider` raises no exception. -/
theorem update_provider_success (s : Settings) (d : ProviderData) (st : SyncState)
    (hwf : WF st.db)
    (h : (∃ a, appsFor st.db d.provider = [a] ∧ a.sites ≠ []) ∨
      s.SITE_ID ∈ st.db.siteIds) :
    (update_provider s d st).err = st.err := by
  rcases appsFor_single hwf d.provider with hnil | ⟨a, hmem, hap, hone⟩
  · rcases h with ⟨a, ha, _⟩ | hs
    · rw [hnil] at ha
      exact absurd ha (by simp)
    · rw [update_provider_nil s d st hnil,
        attachSite_empty_found s
          { pk := st.db.nextPk, name := d.name, provider := d.provider,
            client_id := d.client_id, secret := d.secret, sites := [] }
          { st with
            db := { st.db with
              apps := st.db.apps ++
                [{ pk := st.db.nextPk, name := d.name, provider := d.provider,
                   client_id := d.client_id, secret := d.secret, sites := [] }],
              nextPk := st.db.nextPk + 1 },
            out := st.out ++ [createdLine st.db.nextPk] }
          rfl hs]
  · by_cases hsi : a.sites = []
    · have hs : s.SITE_ID ∈ st.db.siteIds := by
        rcases h with ⟨a2, ha2, ha2si⟩ | hs
        · rw [hone] at ha2
          cases List.head_eq_of_cons_eq ha2.symm
          exact absurd hsi ha2si
        · exact hs
      rw [update_provider_one s d st a hone,
        attachSite_empty_found s
          { a with name := d.name, provider := d.provider,
                   client_id := d.client_id, secret := d.secret }
          { st with
            db := { st.db with
              apps := mapReplace a.pk
                { a with name := d.name, provider := d.provider,
                         client_id := d.client_id, secret := d.secret } st.db.apps },
            out := st.out ++ [updatedLine a.pk] }
          hsi hs]
    · rw [update_provider_one s d st a hone,
        attachSite_nonempty s
          { a with name := d.name, provider := d.provider,
                   client_id := d.client_id, secret := d.secret } _ hsi]

/-- If the upserted row ends with no site and the default site does not
exist, `update_provider` raises `Site.DoesNotExist`. -/
theorem update_provider_fail (s : Settings) (d : ProviderData) (st : SyncState)
    (hwf : WF st.db)
    (hempty : ∀ a ∈ st.db.apps, a.provider = d.provider → a.sites = [])
    (hmiss : s.SITE_ID ∉ st.db.siteIds) :
    (update_provider s d st).err = some RunError.siteNotFound := by
  rcases appsFor_single hwf d.provider with hnil | ⟨a, hmem, hap, hone⟩
  · rw [update_provider_nil s d st hnil,
      attachSite_empty_missing s
        { pk := st.db.nextPk, name := d.name, provider := d.provider,
          client_id := d.client_id, secret := d.secret, sites := [] }
        { st with
          db := { st.db with
            apps := st.db.apps ++
              [{ pk := st.db.nextPk, name := d.name, provider := d.provider,
                 client_id := d.client_id, secret := d.secret, sites := [] }],
            nextPk := st.db.nextPk + 1 },
          out := st.out ++ [createdLine st.db.nextPk] }
        rfl hmiss]
  · rw [update_provider_one s d st a hone,
      attachSite_empty_missing s
        { a with name := d.name, provider := d.provider,
                 client_id := d.client_id, secret := d.secret }
        { st with
          db := { st.db with
            apps := mapReplace a.pk
              { a with name := d.name, provider := d.provider,
                       client_id := d.client_id, secret := d.secret } st.db.apps },
          out := st.out ++ [updatedLine a.pk] }
        (hempty a hmem hap) hmiss]

/-- Re-running `update_provider` with data identical to the stored row (which
already has a site) only prints the "Updated" line: the database and the
error state are untouched. -/
theorem update_provider_idem (s : Settings) (d : ProviderData) (st : SyncState)
    (a : SocialApp) (hwf : WF st.db) (hone : appsFor st.db d.provider = [a])
    (hnm : a.name = d.name) (hci : a.client_id = d.client_id)
    (hse : a.secret = d.secret) (hsi : a.sites ≠ []) :
    update_provider s d st = { st with out := st.out ++ [updatedLine a.pk] } := by
  have hmem : a ∈ st.db.apps ∧ a.provider = d.provider := by
    refine mem_appsFor.mp ?_
    rw [hone]
    exact List.mem_cons_self a []
  have happ : ({ a with name := d.name, provider := d.provider, client_id := d.client_id, secret := d.secret } : SocialApp) = a := by
    rw [← hnm, ← hci, ← hse, ← hmem.2]
  rw [update_provider_one s d st a hone, happ,
    mapReplace_eq_self (pk_unique hwf hmem.1),
    attachSite_nonempty s a _ hsi]

/-! ### `step` invariants -/

theorem step_err (s : Settings) (d : ProviderDef) (st : SyncState) {e : RunError}
    (he : st.err = some e) : step s d st = st := by
  unfold step
  rw [he]

theorem step_err_none_of (s : Settings) (d : ProviderDef) (st : SyncState)
    (h : (step s d st).err = none) : st.err = none := by
  cases herr : st.err with
  | none => rfl
  | some e =>
    rw [step_err s d st herr, herr] at h
    cases h

theorem step_present (s : Settings) (d : ProviderDef) (st : SyncState) {cid sk : String}
    (he : st.err = none) (h1 : d.getId s = some cid) (h2 : d.getSecret s = some sk) :
    step s d st = update_provider s
      { name := d.name, provider := d.provider, client_id := cid, secret := sk } st := by
  unfold step
  rw [he, h1, h2]

theorem step_skip (s : Settings) (d : ProviderDef) (st : SyncState)
    (h : d.getId s = none ∨ d.getSecret s = none) : step s d st = st := by
  cases herr : st.err with
  | some e => exact step_err s d st herr
  | none =>
    unfold step
    rw [herr]
    rcases h with h | h
    · rw [h]
    · rw [h]
      cases hx : d.getId s <;> rfl

theorem step_wf (s : Settings) (d : ProviderDef) (st : SyncState)
    (hwf : WF st.db) : WF (step s d st).db := by
  cases herr : st.err with
  | some e => rw [step_err s d st herr]; exact hwf
  | none =>
    cases h1 : d.getId s with
    | none => rw [step_skip s d st (Or.inl h1)]; exact hwf
    | some cid =>
      cases h2 : d.getSecret s with
      | none => rw [step_skip s d st (Or.inr h2)]; exact hwf
      | some sk =>
        rw [step_present s d st herr h1 h2]
        exact update_provider_wf s _ st hwf

theorem step_frame (s : Settings) (d : ProviderDef) (st : SyncState) (q : String)
    (hwf : WF st.db) (hq : q ≠ d.provider) :
    appsFor (step s d st).db q = appsFor st.db q := by
  cases herr : st.err with
  | some e => rw [step_err s d st herr]
  | none =>
    cases h1 : d.getId s with
    | none => rw [step_skip s d st (Or.inl h1)]
    | some cid =>
      cases h2 : d.getSecret s with
      | none => rw [step_skip s d st (Or.inr h2)]
      | some sk =>
        rw [step_present s d st herr h1 h2]
        exact update_provider_frame s _ st q hwf hq

theorem step_persist (s : Settings) (d : ProviderDef) (st : SyncState)
    (hwf : WF st.db) {r : SocialApp} (hr : r ∈ st.db.apps) :
    ∃ r2, r2 ∈ (step s d st).db.apps ∧ r2.pk = r.pk ∧
      r2.provider = r.provider ∧ (r.sites ≠ [] → r2.sites = r.sites) := by
  cases herr : st.err with
  | some e => rw [step_err s d st herr]; exact ⟨r, hr, rfl, rfl, fun _ => rfl⟩
  | none =>
    cases h1 : d.getId s with
    | none => rw [step_skip s d st (Or.inl h1)]; exact ⟨r, hr, rfl, rfl, fun _ => rfl⟩
    | some cid =>
      cases h2 : d.getSecret s with
      | none => rw [step_skip s d st (Or.inr h2)]; exact ⟨r, hr, rfl, rfl, fun _ => rfl⟩
      | some sk =>
        rw [step_present s d st herr h1 h2]
        exact update_provider_persist s _ st hwf hr

theorem update_provider_out_many (s : Settings) (d : ProviderData) (st : SyncState)
    (a b : SocialApp) (l : List SocialApp)
    (hmany : appsFor st.db d.provider = a :: b :: l) :
    (update_provider s d st).out = st.out := by
  unfold update_provider
  rw [hmany]

/-- Each provider block appends to stdout; nothing already printed is ever
altered or removed. -/
theorem step_out_append (s : Settings) (d : ProviderDef) (st : SyncState) :
    ∃ o, (step s d st).out = st.out ++ o := by
  cases herr : st.err with
  | some e => exact ⟨[], by rw [step_err s d st herr, List.append_nil]⟩
  | none =>
    cases h1 : d.getId s with
    | none => exact ⟨[], by rw [step_skip s d st (Or.inl h1), List.append_nil]⟩
    | some cid =>
      cases h2 : d.getSecret s with
      | none => exact ⟨[], by rw [step_skip s d st (Or.inr h2), List.append_nil]⟩
      | some sk =>
        rw [step_present s d st herr h1 h2]
        rcases happs : appsFor st.db
            ({ name := d.name, provider := d.provider, client_id := cid,
               secret := sk } : ProviderData).provider with _ | ⟨a, _ | ⟨b, l⟩⟩
        · exact ⟨[createdLine st.db.nextPk], update_provider_out_nil s _ st happs⟩
        · exact ⟨[updatedLine a.pk], update_provider_out_one s _ st a happs⟩
        · exact ⟨[], by rw [update_provider_out_many s _ st a b l happs, List.append_nil]⟩

/-! ### Whole-run (`runList` / `handle`) invariants -/

/-- `handle` is exactly the fold of `step` over the fixed, ordered provider
list. -/
theorem handle_eq_runList (s : Settings) (st : SyncState) :
    handle s st = runList s st providerDefs := rfl

theorem providerDefs_providers :
    providerDefs.map (fun d => d.provider) =
      [FXA_PROVIDER_ID, GITHUB_PROVIDER_ID, GITLAB_PROVIDER_ID,
       GOOGLE_PROVIDER_ID, KEYCLOAK_PROVIDER_ID, DISCORD_PROVIDER_ID] := rfl

theorem providerDefs_providers_nodup :
    (providerDefs.map (fun d => d.provider)).Nodup := by
  rw [providerDefs_providers]
  decide

/-- A propagating exception skips every remaining provider block. -/
theorem runList_err (s : Settings) {e : RunError} :
    ∀ (defs : List ProviderDef) (st : SyncState), st.err = some e →
      runList s st defs = st := by
  intro defs
  induction defs with
  | nil => intro st _; rfl
  | cons d ds ih =>
    intro st he
    show runList s (step s d st) ds = st
    rw [step_err s d st he]
    exact ih st he

theorem runList_err_none_of (s : Settings) :
    ∀ (defs : List ProviderDef) (st : SyncState),
      (runList s st defs).err = none → st.err = none := by
  intro defs
  induction defs with
  | nil => intro st h; exact h
  | cons d ds ih =>
    intro st h
    exact step_err_none_of s d st (ih (step s d st) h)

theorem runList_wf (s : Settings) :
    ∀ (defs : List ProviderDef) (st : SyncState), WF st.db →
      WF (runList s st defs).db := by
  intro defs
  induction defs with
  | nil => intro st hwf; exact hwf
  | cons d ds ih =>
    intro st hwf
    exact ih (step s d st) (step_wf s d st hwf)

/-- The rows of a provider key are untouched by a run in which every
definition with that key is skipped (its configuration incomplete). -/
theorem runList_frame (s : Settings) (q : String) :
    ∀ (defs : List ProviderDef) (st : SyncState), WF st.db →
      (∀ d ∈ defs, d.provider = q → (d.getId s = none ∨ d.getSecret s = none)) →
      appsFor (runList s st defs).db q = appsFor st.db q := by
  intro defs
  induction defs with
  | nil => intro st _ _; rfl
  | cons d ds ih =>
    intro st hwf hd
    have hstep : appsFor (step s d st).db q = appsFor st.db q := by
      by_cases hq : d.provider = q
      · rw [step_skip s d st (hd d (List.mem_cons_self d ds) hq)]
      · exact step_frame s d st q hwf (fun h => hq h.symm)
    calc appsFor (runList s (step s d st) ds).db q
        = appsFor (step s d st).db q :=
          ih (step s d st) (step_wf s d st hwf)
            (fun f hf => hd f (List.mem_cons_of_mem d hf))
      _ = appsFor st.db q := hstep

/-- Every pre-existing row survives a whole run with its primary key and
provider key intact, and its sites intact whenever they were non-empty. -/
theorem runList_persist (s : Settings) :
    ∀ (defs : List ProviderDef) (st : SyncState), WF st.db →
      ∀ r ∈ st.db.apps,
        ∃ r2, r2 ∈ (runList s st defs).db.apps ∧ r2.pk = r.pk ∧
          r2.provider = r.provider ∧ (r.sites ≠ [] → r2.sites = r.sites) := by
  intro defs
  induction defs with
  | nil => intro st _ r hr; exact ⟨r, hr, rfl, rfl, fun _ => rfl⟩
  | cons d ds ih =>
    intro st hwf r hr
    obtain ⟨r1, hr1, hr1pk, hr1pv, hr1si⟩ := step_persist s d st hwf hr
    obtain ⟨r2, hr2, hr2pk, hr2pv, hr2si⟩ :=
      ih (step s d st) (step_wf s d st hwf) r1 hr1
    refine ⟨r2, hr2, hr2pk.trans hr1pk, hr2pv.trans hr1pv, fun hsi => ?_⟩
    have h1 := hr1si hsi
    have h2 := hr2si (by rw [h1]; exact hsi)
    rw [h2, h1]

/-- After a fully successful run, every provider of the (duplicate-free) list
is synced: present configuration values are stored verbatim in exactly one
row, which has at least one site. -/
theorem runList_synced (s : Settings) :
    ∀ (defs : List ProviderDef) (st : SyncState),
      (defs.map (fun d => d.provider)).Nodup → WF st.db → st.err = none →
      (runList s st defs).err = none →
      ∀ d ∈ defs, Synced s (runList s st defs).db d := by
  intro defs
  induction defs with
  | nil => intro st _ _ _ _ d hd; exact absurd hd (List.not_mem_nil d)
  | cons e es ih =>
    intro st hnd hwf he hfin d hd
    have hnds := (List.nodup_cons.mp hnd).2
    have hepv := (List.nodup_cons.mp hnd).1
    have hwf1 : WF (step s e st).db := step_wf s e st hwf
    have hfin' : (runList s (step s e st) es).err = none := hfin
    have he1 : (step s e st).err = none := runList_err_none_of s es (step s e st) hfin'
    rcases List.mem_cons.mp hd with rfl | hds
    · intro cid sk h1 h2
      have hstep := step_present s d st he h1 h2
      obtain ⟨b, hb, hbnm, hbpv, hbci, hbse, hbsi⟩ :=
        update_provider_self s
          { name := d.name, provider := d.provider, client_id := cid, secret := sk }
          st hwf
      rw [← hstep] at hb hbsi
      have hframe : appsFor (runList s (step s d st) es).db d.provider
          = appsFor (step s d st).db d.provider :=
        runList_frame s d.provider es (step s d st) hwf1
          (fun f hf hfp =>
            absurd (show d.provider ∈ List.map (fun x => x.provider) es by
              rw [← hfp]
              exact List.mem_map_of_mem (fun x => x.provider) hf) hepv)
      refine ⟨b, ?_, hbnm, hbpv, hbci, hbse, hbsi he1⟩
      show appsFor (runList s (step s d st) es).db d.provider = [b]
      rw [hframe]
      exact hb
    · exact ih (step s e st) hnds hwf1 he1 hfin' d hds

/-- A run succeeds outright whenever every configured provider already has a
row with at least one attached site — the default-site lookup is then never
reached, so it does not matter whether the default site exists. -/
theorem runList_success (s : Settings) :
    ∀ (defs : List ProviderDef) (st : SyncState), WF st.db → st.err = none →
      (∀ d ∈ defs, ∀ cid sk, d.getId s = some cid → d.getSecret s = some sk →
        ∃ a, a ∈ st.db.apps ∧ a.provider = d.provider ∧ a.sites ≠ []) →
      (runList s st defs).err = none := by
  intro defs
  induction defs with
  | nil => intro st _ he _; exact he
  | cons e es ih =>
    intro st hwf he hex
    show (runList s (step s e st) es).err = none
    have hstep_err : (step s e st).err = none := by
      cases h1 : e.getId s with
      | none => rw [step_skip s e st (Or.inl h1)]; exact he
      | some cid =>
        cases h2 : e.getSecret s with
        | none => rw [step_skip s e st (Or.inr h2)]; exact he
        | some sk =>
          obtain ⟨a, ha, hap, hasi⟩ := hex e (List.mem_cons_self e es) cid sk h1 h2
          have hsingle : ∃ a2, appsFor st.db e.provider = [a2] ∧ a2.sites ≠ [] := by
            rcases appsFor_single hwf e.provider with hnil | ⟨a2, ha2, hap2, hone⟩
            · have hmm : a ∈ appsFor st.db e.provider := mem_appsFor.mpr ⟨ha, hap⟩
              rw [hnil] at hmm
              exact absurd hmm (List.not_mem_nil a)
            · have hmm : a ∈ appsFor st.db e.provider := mem_appsFor.mpr ⟨ha, hap⟩
              rw [hone] at hmm
              have haa : a = a2 := List.mem_singleton.mp hmm
              exact ⟨a2, hone, haa ▸ hasi⟩
          rw [step_present s e st he h1 h2,
            update_provider_success s
              { name := e.name, provider := e.provider, client_id := cid, secret := sk }
              st hwf (Or.inl hsingle)]
          exact he
    apply ih (step s e st) (step_wf s e st hwf) hstep_err
    intro f hf cid sk h1 h2
    obtain ⟨a, ha, hap, hasi⟩ := hex f (List.mem_cons_of_mem e hf) cid sk h1 h2
    obtain ⟨r2, hr2, _, hr2pv, hr2si⟩ := step_persist s e st hwf ha
    exact ⟨r2, hr2, by rw [hr2pv, hap], by rw [hr2si hasi]; exact hasi⟩

/-- Re-running on a database that already stores exactly the configured
values (with sites attached) changes nothing, prints only "Updated" lines,
and prints the "Updated" line of every provider whose two values are
present (with that provider's row's primary key). -/
theorem runList_idem (s : Settings) :
    ∀ (defs : List ProviderDef) (st : SyncState), WF st.db → st.err = none →
      (∀ d ∈ defs, ∀ cid sk, d.getId s = some cid → d.getSecret s = some sk →
        ∃ a, appsFor st.db d.provider = [a] ∧ a.name = d.name ∧
          a.client_id = cid ∧ a.secret = sk ∧ a.sites ≠ []) →
      (runList s st defs).db = st.db ∧ (runList s st defs).err = none ∧
      ∃ L, (runList s st defs).out = st.out ++ L ∧
        (∀ line ∈ L, ∃ n, line = updatedLine n) ∧
        (∀ d ∈ defs, ∀ cid sk, d.getId s = some cid → d.getSecret s = some sk →
          ∃ a, appsFor st.db d.provider = [a] ∧ updatedLine a.pk ∈ L) := by
  intro defs
  induction defs with
  | nil =>
    intro st _ he _
    exact ⟨rfl, he, [], (List.append_nil st.out).symm,
      fun line hl => absurd hl (List.not_mem_nil line),
      fun d hd => absurd hd (List.not_mem_nil d)⟩
  | cons e es ih =>
    intro st hwf he hx
    rw [show runList s st (e :: es) = runList s (step s e st) es from rfl]
    cases h1 : e.getId s with
    | none =>
      rw [step_skip s e st (Or.inl h1)]
      obtain ⟨hdb, herr, L, hout, hL, hP⟩ :=
        ih st hwf he (fun f hf => hx f (List.mem_cons_of_mem e hf))
      refine ⟨hdb, herr, L, hout, hL, ?_⟩
      intro d hd cid sk h1' h2'
      rcases List.mem_cons.mp hd with rfl | hds
      · rw [h1] at h1'
        exact Option.noConfusion h1'
      · exact hP d hds cid sk h1' h2'
    | some cid0 =>
      cases h2 : e.getSecret s with
      | none =>
        rw [step_skip s e st (Or.inr h2)]
        obtain ⟨hdb, herr, L, hout, hL, hP⟩ :=
          ih st hwf he (fun f hf => hx f (List.mem_cons_of_mem e hf))
        refine ⟨hdb, herr, L, hout, hL, ?_⟩
        intro d hd cid sk h1' h2'
        rcases List.mem_cons.mp hd with rfl | hds
        · rw [h2] at h2'
          exact Option.noConfusion h2'
        · exact hP d hds cid sk h1' h2'
      | some sk0 =>
        obtain ⟨a, hone, hnm, hci, hse, hsi⟩ :=
          hx e (List.mem_cons_self e es) cid0 sk0 h1 h2
        have hstep : step s e st = { st with out := st.out ++ [updatedLine a.pk] } := by
          rw [step_present s e st he h1 h2]
          exact update_provider_idem s _ st a hwf hone hnm hci hse hsi
        rw [hstep]
        obtain ⟨hdb, herr, L, hout, hL, hP⟩ :=
          ih { st with out := st.out ++ [updatedLine a.pk] } hwf he
            (fun f hf => hx f (List.mem_cons_of_mem e hf))
        refine ⟨hdb, herr, [updatedLine a.pk] ++ L, ?_, ?_, ?_⟩
        · rw [hout]
          show (st.out ++ [updatedLine a.pk]) ++ L = st.out ++ ([updatedLine a.pk] ++ L)
          rw [List.append_assoc]
        · intro line hl
          rcases List.mem_append.mp hl with hl | hl
          · exact ⟨a.pk, List.mem_singleton.mp hl⟩
          · exact hL line hl
        · intro d hd cid sk h1' h2'
          rcases List.mem_cons.mp hd with rfl | hds
          · exact ⟨a, hone, List.mem_append_left L (List.mem_singleton.mpr rfl)⟩
          · obtain ⟨a2, ha2, hm2⟩ := hP d hds cid sk h1' h2'
            exact ⟨a2, ha2, List.mem_append_right _ hm2⟩

/-! ### The claims -/

/-- C1: for every one of the 6 providers, if both of its configuration values
(client id and secret) are non-null, then after one (successfully completed)
run of Provider Sync exactly one `SocialApp` row with that provider key
exists, and its `client_id` and `secret` equal the configuration values
exactly, whether the row was created or updated. -/
theorem spec_C1 (s : Settings) (db : DB) (d : ProviderDef) (cid sk : String)
    (hwf : WF db) (hd : d ∈ providerDefs)
    (h1 : d.getId s = some cid) (h2 : d.getSecret s = some sk)
    (hok : (runSync s db).err = none) :
    ∃ a, appsFor (runSync s db).db d.provider = [a] ∧
      a.client_id = cid ∧ a.secret = sk := by
  obtain ⟨a, ha, hnm, hpv, hci, hse, hsi⟩ :=
    runList_synced s providerDefs { db := db, out := [], err := none }
      providerDefs_providers_nodup hwf rfl hok d hd cid sk h1 h2
  exact ⟨a, ha, hci, hse⟩

theorem spec_C1_witness :
    WF emptyDB ∧ githubDef ∈ providerDefs ∧
    githubDef.getId sampleSettings = some "abc" ∧
    githubDef.getSecret sampleSettings = some "def" ∧
    (runSync sampleSettings emptyDB).err = none ∧
    ∃ a, appsFor (runSync sampleSettings emptyDB).db githubDef.provider = [a] ∧
      a.client_id = "abc" ∧ a.secret = "def" :=
  ⟨by decide, by simp [providerDefs], rfl, rfl, by decide,
    spec_C1 sampleSettings emptyDB githubDef "abc" "def" (by decide)
      (by simp [providerDefs]) rfl rfl (by decide)⟩

/-- C2: for every one of the 6 providers, if either of its two configuration
values is absent (null), the run creates no row for that provider and leaves
the rows with that provider key (in particular any existing row) completely
unchanged. -/
theorem spec_C2 (s : Settings) (db : DB) (d : ProviderDef)
    (hwf : WF db) (hd : d ∈ providerDefs)
    (habs : d.getId s = none ∨ d.getSecret s = none) :
    appsFor (runSync s db).db d.provider = appsFor db d.provider := by
  have hall : ∀ f ∈ providerDefs, f.provider = d.provider →
      (f.getId s = none ∨ f.getSecret s = none) := by
    intro f hf hfp
    have hfd : f = d :=
      List.inj_on_of_nodup_map providerDefs_providers_nodup hf hd hfp
    rw [hfd]
    exact habs
  exact runList_frame s d.provider providerDefs
    { db := db, out := [], err := none } hwf hall

theorem spec_C2_witness :
    WF oneFxaDB ∧ fxaDef ∈ providerDefs ∧
    (fxaDef.getId sampleSettings = none ∨ fxaDef.getSecret sampleSettings = none) ∧
    appsFor (runSync sampleSettings oneFxaDB).db fxaDef.provider =
      appsFor oneFxaDB fxaDef.provider :=
  ⟨by decide, by simp [providerDefs], Or.inl rfl,
    spec_C2 sampleSettings oneFxaDB fxaDef (by decide)
      (by simp [providerDefs]) (Or.inl rfl)⟩

/-- C3: Provider Sync is idempotent: after a successful run, running it again
with identical configuration leaves the database exactly as it was, succeeds,
every line it prints is an "Updated" line (so never a "Created" one), and
every provider whose two configuration values are present IS reported as
updated — the "Updated" line carrying its row's primary key is among the
second run's output. -/
theorem spec_C3 (s : Settings) (db : DB)
    (hwf : WF db) (hok : (runSync s db).err = none) :
    (runSync s (runSync s db).db).db = (runSync s db).db ∧
    (runSync s (runSync s db).db).err = none ∧
    (∀ line ∈ (runSync s (runSync s db).db).out, ∃ n, line = updatedLine n) ∧
    (∀ d ∈ providerDefs, ∀ cid sk, d.getId s = some cid →
      d.getSecret s = some sk →
      ∃ a, appsFor (runSync s db).db d.provider = [a] ∧
        updatedLine a.pk ∈ (runSync s (runSync s db).db).out) := by
  have hwf1 : WF (runSync s db).db :=
    runList_wf s providerDefs { db := db, out := [], err := none } hwf
  have hsy :=
    runList_synced s providerDefs { db := db, out := [], err := none }
      providerDefs_providers_nodup hwf rfl hok
  have hx : ∀ d ∈ providerDefs, ∀ cid sk, d.getId s = some cid →
      d.getSecret s = some sk →
      ∃ a, appsFor (runSync s db).db d.provider = [a] ∧ a.name = d.name ∧
        a.client_id = cid ∧ a.secret = sk ∧ a.sites ≠ [] := by
    intro d hd cid sk h1 h2
    obtain ⟨a, ha, hnm, hpv, hci, hse, hsi⟩ := hsy d hd cid sk h1 h2
    exact ⟨a, ha, hnm, hci, hse, hsi⟩
  obtain ⟨hdb, herr, L, hout, hL, hP⟩ :=
    runList_idem s providerDefs
      { db := (runSync s db).db, out := [], err := none } hwf1 rfl hx
  have hout2 : (runSync s (runSync s db).db).out = ([] : List String) ++ L := hout
  refine ⟨hdb, herr, ?_, ?_⟩
  · intro line hl
    rw [hout2, List.nil_append] at hl
    exact hL line hl
  · intro d hd cid sk h1 h2
    obtain ⟨a, ha, hm⟩ := hP d hd cid sk h1 h2
    refine ⟨a, ha, ?_⟩
    rw [hout2, List.nil_append]
    exact hm

theorem spec_C3_witness :
    WF emptyDB ∧ (runSync sampleSettings emptyDB).err = none ∧
    ((runSync sampleSettings (runSync sampleSettings emptyDB).db).db =
      (runSync sampleSettings emptyDB).db ∧
    (runSync sampleSettings (runSync sampleSettings emptyDB).db).err = none ∧
    (∀ line ∈ (runSync sampleSettings (runSync sampleSettings emptyDB).db).out,
      ∃ n, line = updatedLine n) ∧
    (∀ d ∈ providerDefs, ∀ cid sk, d.getId sampleSettings = some cid →
      d.getSecret sampleSettings = some sk →
      ∃ a, appsFor (runSync sampleSettings emptyDB).db d.provider = [a] ∧
        updatedLine a.pk ∈
          (runSync sampleSettings (runSync sampleSettings emptyDB).db).out)) :=
  ⟨by decide, by decide,
    spec_C3 sampleSettings emptyDB (by decide) (by decide)⟩

/-- C4: a row's provider key never changes: every pre-existing row is still
present after a run (same primary key) with the same provider key; in
particular the update branch never changes the provider key of the row it
looked up by that key. -/
theorem spec_C4 (s : Settings) (db : DB) (hwf : WF db) :
    ∀ r ∈ db.apps, ∃ r2, r2 ∈ (runSync s db).db.apps ∧
      r2.pk = r.pk ∧ r2.provider = r.provider := by
  intro r hr
  obtain ⟨r2, h1, h2, h3, _⟩ :=
    runList_persist s providerDefs { db := db, out := [], err := none } hwf r hr
  exact ⟨r2, h1, h2, h3⟩

theorem spec_C4_witness :
    WF oneFxaDB ∧
    ∀ r ∈ oneFxaDB.apps, ∃ r2, r2 ∈ (runSync sampleSettings oneFxaDB).db.apps ∧
      r2.pk = r.pk ∧ r2.provider = r.provider :=
  ⟨by decide, spec_C4 sampleSettings oneFxaDB (by decide)⟩

/-- C5: if a provider's two configuration values are present, its row ends
the upsert with no attached site, and the configured default site does not
exist, then the provider block fails with the fatal site-lookup error, the
row has nevertheless already been created/updated with the configured
values, its report line has already been printed, and the rest of the run
does nothing (the exception propagates, aborting the whole run). -/
theorem spec_C5 (s : Settings) (st : SyncState) (d : ProviderDef) (cid sk : String)
    (hwf : WF st.db) (he : st.err = none)
    (h1 : d.getId s = some cid) (h2 : d.getSecret s = some sk)
    (hempty : ∀ a ∈ st.db.apps, a.provider = d.provider → a.sites = [])
    (hmiss : s.SITE_ID ∉ st.db.siteIds) :
    (step s d st).err = some RunError.siteNotFound ∧
    (∃ a, appsFor (step s d st).db d.provider = [a] ∧
      a.client_id = cid ∧ a.secret = sk) ∧
    (∃ line, (step s d st).out = st.out ++ [line]) ∧
    (∀ defs, runList s (step s d st) defs = step s d st) := by
  have hstep := step_present s d st he h1 h2
  have herr : (step s d st).err = some RunError.siteNotFound := by
    rw [hstep]
    exact update_provider_fail s _ st hwf hempty hmiss
  refine ⟨herr, ?_, ?_, fun defs => runList_err s defs (step s d st) herr⟩
  · obtain ⟨b, hb, _, _, hci, hse, _⟩ :=
      update_provider_self s
        { name := d.name, provider := d.provider, client_id := cid, secret := sk }
        st hwf
    rw [← hstep] at hb
    exact ⟨b, hb, hci, hse⟩
  · rw [hstep]
    rcases appsFor_single hwf d.provider with hnil | ⟨a, _, _, hone⟩
    · exact ⟨createdLine st.db.nextPk, update_provider_out_nil s _ st hnil⟩
    · exact ⟨updatedLine a.pk, update_provider_out_one s _ st a hone⟩

theorem spec_C5_witness :
    WF emptyDB ∧
    githubDef.getId sampleSettingsBadSite = some "abc" ∧
    githubDef.getSecret sampleSettingsBadSite = some "def" ∧
    (∀ a ∈ emptyDB.apps, a.provider = githubDef.provider → a.sites = []) ∧
    sampleSettingsBadSite.SITE_ID ∉ emptyDB.siteIds ∧
    ((step sampleSettingsBadSite githubDef
        { db := emptyDB, out := [], err := none }).err =
      some RunError.siteNotFound ∧
    (∃ a, appsFor (step sampleSettingsBadSite githubDef
        { db := emptyDB, out := [], err := none }).db githubDef.provider = [a] ∧
      a.client_id = "abc" ∧ a.secret = "def") ∧
    (∃ line, (step sampleSettingsBadSite githubDef
        { db := emptyDB, out := [], err := none }).out = [] ++ [line]) ∧
    (∀ defs, runList sampleSettingsBadSite
        (step sampleSettingsBadSite githubDef
          { db := emptyDB, out := [], err := none }) defs =
      step sampleSettingsBadSite githubDef
        { db := emptyDB, out := [], err := none })) :=
  ⟨by decide, rfl, rfl, by decide, by decide,
    spec_C5 sampleSettingsBadSite { db := emptyDB, out := [], err := none }
      githubDef "abc" "def" (by decide) rfl rfl rfl (by decide) (by decide)⟩

/-- C6: a non-empty site set is never cleared, shrunk or replaced by a run
(rows keep their sites verbatim), and after a successful run every row of a
configured provider has at least one attached site. -/
theorem spec_C6 (s : Settings) (db : DB) (hwf : WF db) :
    (∀ r ∈ db.apps, r.sites ≠ [] →
      ∃ r2, r2 ∈ (runSync s db).db.apps ∧ r2.pk = r.pk ∧ r2.sites = r.sites) ∧
    ((runSync s db).err = none →
      ∀ d ∈ providerDefs, ∀ cid sk, d.getId s = some cid →
        d.getSecret s = some sk →
        ∀ r2 ∈ appsFor (runSync s db).db d.provider, r2.sites ≠ []) := by
  constructor
  · intro r hr hsi
    obtain ⟨r2, h1, h2, _, h4⟩ :=
      runList_persist s providerDefs { db := db, out := [], err := none } hwf r hr
    exact ⟨r2, h1, h2, h4 hsi⟩
  · intro hok d hd cid sk h1 h2 r2 hr2
    obtain ⟨a, ha, _, _, _, _, hsi⟩ :=
      runList_synced s providerDefs { db := db, out := [], err := none }
        providerDefs_providers_nodup hwf rfl hok d hd cid sk h1 h2
    rw [show appsFor (runSync s db).db d.provider = [a] from ha] at hr2
    cases List.mem_singleton.mp hr2
    exact hsi

theorem spec_C6_witness :
    WF oneFxaDB ∧
    ((∀ r ∈ oneFxaDB.apps, r.sites ≠ [] →
      ∃ r2, r2 ∈ (runSync sampleSettings oneFxaDB).db.apps ∧
        r2.pk = r.pk ∧ r2.sites = r.sites) ∧
    ((runSync sampleSettings oneFxaDB).err = none →
      ∀ d ∈ providerDefs, ∀ cid sk, d.getId sampleSettings = some cid →
        d.getSecret sampleSettings = some sk →
        ∀ r2 ∈ appsFor (runSync sampleSettings oneFxaDB).db d.provider,
          r2.sites ≠ [])) :=
  ⟨by decide, spec_C6 sampleSettings oneFxaDB (by decide)⟩

/-- C7: the providers are processed in the fixed order FxA, GitHub, GitLab,
Google, Keycloak, Discord — `handle` is the fold of the provider block over
exactly that ordered list, and each block only appends its report lines to
the output, so the lines of synced providers appear in exactly that relative
order. -/
theorem spec_C7 :
    providerDefs.map (fun d => d.name) =
      ["FxA", "GitHub", "GitLab", "Google", "Keycloak", "Discord"] ∧
    providerDefs.map (fun d => d.provider) =
      ["fxa", "github", "gitlab", "google", "keycloak", "discord"] ∧
    (∀ s st, handle s st = runList s st providerDefs) ∧
    (∀ s d st, ∃ o, (step s d st).out = st.out ++ o) :=
  ⟨rfl, rfl, fun _ _ => rfl, fun s d st => step_out_append s d st⟩

/-- C8: for every provider actually synced exactly one line is printed —
"Updated existing authentication provider (pk=<id>)" when a row with that
provider key was found, "Created new authentication provider (pk=<id>)"
when a new row was created (`<id>` the row's primary key) — and no line is
printed for a skipped provider. -/
theorem spec_C8 (s : Settings) (d : ProviderDef) (st : SyncState) (cid sk : String)
    (he : st.err = none) :
    (d.getId s = some cid → d.getSecret s = some sk →
      (appsFor st.db d.provider = [] →
        (step s d st).out = st.out ++ [createdLine st.db.nextPk]) ∧
      (∀ a, appsFor st.db d.provider = [a] →
        (step s d st).out = st.out ++ [updatedLine a.pk])) ∧
    ((d.getId s = none ∨ d.getSecret s = none) → (step s d st).out = st.out) := by
  constructor
  · intro h1 h2
    have hstep := step_present s d st he h1 h2
    constructor
    · intro hnil
      rw [hstep]
      exact update_provider_out_nil s _ st hnil
    · intro a hone
      rw [hstep]
      exact update_provider_out_one s _ st a hone
  · intro habs
    rw [step_skip s d st habs]

theorem spec_C8_witness :
    ({ db := emptyDB, out := [], err := none } : SyncState).err = none ∧
    ((githubDef.getId sampleSettings = some "abc" →
      githubDef.getSecret sampleSettings = some "def" →
      (appsFor emptyDB githubDef.provider = [] →
        (step sampleSettings githubDef
          { db := emptyDB, out := [], err := none }).out =
          [] ++ [createdLine emptyDB.nextPk]) ∧
      (∀ a, appsFor emptyDB githubDef.provider = [a] →
        (step sampleSettings githubDef
          { db := emptyDB, out := [], err := none }).out =
          [] ++ [updatedLine a.pk])) ∧
    ((githubDef.getId sampleSettings = none ∨
      githubDef.getSecret sampleSettings = none) →
      (step sampleSettings githubDef
        { db := emptyDB, out := [], err := none }).out = [])) :=
  ⟨rfl,
    spec_C8 sampleSettings githubDef { db := emptyDB, out := [], err := none }
      "abc" "def" rfl⟩

/-- C9: when the row of every configured provider already has at least one
attached site, the default-site lookup is never reached, so the whole run
succeeds even if the configured default-site identifier refers to no
existing site. -/
theorem spec_C9 (s : Settings) (db : DB) (hwf : WF db)
    (hex : ∀ d ∈ providerDefs, ∀ cid sk, d.getId s = some cid →
      d.getSecret s = some sk →
      ∃ a, a ∈ db.apps ∧ a.provider = d.provider ∧ a.sites ≠ []) :
    (runSync s db).err = none :=
  runList_success s providerDefs { db := db, out := [], err := none } hwf rfl hex

theorem spec_C9_witness :
    WF githubSitedDB ∧
    (∀ d ∈ providerDefs, ∀ cid sk, d.getId sampleSettingsBadSite = some cid →
      d.getSecret sampleSettingsBadSite = some sk →
      ∃ a, a ∈ githubSitedDB.apps ∧ a.provider = d.provider ∧ a.sites ≠ []) ∧
    (runSync sampleSettingsBadSite githubSitedDB).err = none := by
  have hex : ∀ d ∈ providerDefs, ∀ cid sk,
      d.getId sampleSettingsBadSite = some cid →
      d.getSecret sampleSettingsBadSite = some sk →
      ∃ a, a ∈ githubSitedDB.apps ∧ a.provider = d.provider ∧ a.sites ≠ [] := by
    intro d hd cid sk h1 h2
    simp only [providerDefs, List.mem_cons, List.not_mem_nil, or_false] at hd
    rcases hd with rfl | rfl | rfl | rfl | rfl | rfl
    · exact Option.noConfusion (show (none : Option String) = some cid from h1)
    · exact ⟨{ pk := 1, name := "GitHub", provider := "github",
               client_id := "old", secret := "olds", sites := [1] },
        by decide, rfl, by decide⟩
    · exact Option.noConfusion (show (none : Option String) = some cid from h1)
    · exact Option.noConfusion (show (none : Option String) = some cid from h1)
    · exact Option.noConfusion (show (none : Option String) = some cid from h1)
    · exact Option.noConfusion (show (none : Option String) = some cid from h1)
  exact ⟨by decide, hex,
    spec_C9 sampleSettingsBadSite githubSitedDB (by decide) hex⟩

/-- C10: only a null configuration value counts as absent: an empty-string
value does not make the provider be skipped, and the resulting row stores
the empty string verbatim as its client id or secret. -/
theorem spec_C10 (s : Settings) (db : DB) (d : ProviderDef) (cid sk : String)
    (hwf : WF db) (hd : d ∈ providerDefs)
    (h1 : d.getId s = some cid) (h2 : d.getSecret s = some sk)
    (_hblank : cid = "" ∨ sk = "")
    (hok : (runSync s db).err = none) :
    ∃ a, appsFor (runSync s db).db d.provider = [a] ∧
      a.client_id = cid ∧ a.secret = sk := by
  obtain ⟨a, ha, _, _, hci, hse, _⟩ :=
    runList_synced s providerDefs { db := db, out := [], err := none }
      providerDefs_providers_nodup hwf rfl hok d hd cid sk h1 h2
  exact ⟨a, ha, hci, hse⟩

theorem spec_C10_witness :
    WF emptyDB ∧ githubDef ∈ providerDefs ∧
    githubDef.getId sampleSettingsEmptyId = some "" ∧
    githubDef.getSecret sampleSettingsEmptyId = some "def" ∧
    ((("" : String) = "") ∨ (("def" : String) = "")) ∧
    (runSync sampleSettingsEmptyId emptyDB).err = none ∧
    ∃ a, appsFor (runSync sampleSettingsEmptyId emptyDB).db githubDef.provider = [a] ∧
      a.client_id = "" ∧ a.secret = "def" :=
  ⟨by decide, by simp [providerDefs], rfl, rfl, Or.inl rfl, by decide,
    spec_C10 sampleSettingsEmptyId emptyDB githubDef "" "def" (by decide)
      (by simp [providerDefs]) rfl rfl (Or.inl rfl) (by decide)⟩

end UpdateAuthProviders
